import Mathlib

/-!
Shallow embedding of `ssws.py` (Stupid Simple Web Scanner).

The scanner's pure logic is translated directly from the source:

* `normalize_fqdns`  — src/ssws.py lines 10-25
* `resolve_ip`       — lines 27-31
* `detect_dynamic_dns` — lines 33-41
* `grab_banner`      — lines 52-60
* `check_wordpress`  — lines 62-78
* `check_robots`     — lines 80-92
* `mainScan`         — the scan loop of `main`, lines 115-150

Network effects (`socket.gethostbyname`, `requests.head`, `requests.get`)
are modelled by a record of oracles `Net`; an oracle returning `none`
models the corresponding Python exception (`socket.gaierror`,
`requests.exceptions.RequestException`).  All functions are total: no
failure escapes past them, matching the script's try/except structure.
-/

/-- Python `str.strip` whitespace set (ASCII part): space, tab, newline,
carriage return, vertical tab, form feed. -/
def isPySpace (c : Char) : Bool :=
  c = ' ' || c = '\t' || c = '\n' || c = '\r' || c = '\x0b' || c = '\x0c'

/-- Strip leading and trailing whitespace characters from a character list,
as Python `str.strip()` does. -/
def stripChars (l : List Char) : List Char :=
  ((l.dropWhile isPySpace).reverse.dropWhile isPySpace).reverse

/-- Python `fqdn.strip()` on a string. -/
def pyStrip (s : String) : String := String.mk (stripChars s.toList)

/-- Lines 13-17 of `normalize_fqdns`: `fqdn = fqdn.strip()`, then strip a
leading `"www."` when present (`fqdn[4:]`). -/
def stripWww (fqdn : String) : String :=
  let t := stripChars fqdn.toList
  if ['w', 'w', 'w', '.'].isPrefixOf t then String.mk (t.drop 4) else String.mk t

/-- Lexicographic comparison of character lists by code points, the
order Python uses to compare `str` values.  Defined by structural
recursion so that it evaluates inside the kernel; `strLe_iff_le` below
identifies it with the mathematical order on `String`. -/
def charListLe : List Char → List Char → Bool
  | [], _ => true
  | _ :: _, [] => false
  | a :: as, b :: bs => if a < b then true else if b < a then false else charListLe as bs

/-- Python `a <= b` on strings. -/
def strLe (a b : String) : Bool := charListLe a.toList b.toList

/-- Python `sorted` on a list of strings: ascending sort by the
lexicographic order on code points. -/
def pySorted (l : List String) : List String :=
  List.insertionSort (fun a b => strLe a b = true) l

/-- `normalize_fqdns` (src/ssws.py lines 10-25): collect the set of
base names (with one leading `"www."` stripped), then for each base name
in sorted order emit the bare and the `"www."`-prefixed form, and return
the sorted deduplicated result.  Python sets are modelled by `dedup`
followed by sorting (only membership of a set is observable through
`sorted`). -/
def normalize_fqdns (fqdns : List String) : List String :=
  let normalized := (fqdns.map stripWww).dedup
  let sorted_fqdns := pySorted normalized
  let full_list := sorted_fqdns.flatMap (fun fqdn => [fqdn, "www." ++ fqdn])
  pySorted full_list.dedup

/-- A HTTP response as delivered by the `requests` library: the integer
status code, the optional `Server` header, and the body text
(`response.text`). -/
structure Response where
  status : Nat
  server : Option String
  body : String
deriving DecidableEq

/-- The network, as a record of oracles.  `gethostbyname` models
`socket.gethostbyname` for the single resolution in `resolve_ip`
(`none` = `socket.gaierror`); `dynLookup f n` models the result of the
`n`-th `socket.gethostbyname` call inside `detect_dynamic_dns` for host
`f`; `head`/`get` model `requests.head`/`requests.get` keyed by the
exact URL string the script builds (`none` = `RequestException`). -/
structure Net where
  gethostbyname : String → Option String
  dynLookup : String → Nat → Option String
  head : String → Option Response
  get : String → Option Response

/-- `resolve_ip` (lines 27-31): one forward resolution, `None` on
`socket.gaierror`. -/
def resolve_ip (net : Net) (fqdn : String) : Option String :=
  net.gethostbyname fqdn

/-- The loop of `detect_dynamic_dns` (lines 35-39): `k` attempts remain,
`i` is the index of the next `gethostbyname` call, `ips` is the set of
addresses observed so far.  A `none` result models `socket.gaierror`
raised by the call; since the Python `try` encloses the whole `for`
loop, the exception aborts the loop and the function returns `False`. -/
def dynLoop (res : Nat → Option String) : Nat → Nat → List String → Bool
  | 0, _, ips => decide (ips.length > 1)
  | k + 1, i, ips =>
    match res i with
    | none => false
    | some ip => dynLoop res k (i + 1) (if ip ∈ ips then ips else ip :: ips)

/-- `detect_dynamic_dns` (lines 33-41): resolve three times, return
whether more than one distinct address was observed; `False` as soon as
any resolution fails. -/
def detect_dynamic_dns (res : Nat → Option String) : Bool :=
  dynLoop res 3 0 []

/-- URL for the reachability probe (lines 54-56): scheme is `https`
exactly when the port is 443. -/
def rootUrl (fqdn : String) (port : Nat) : String :=
  if port = 443 then "https://" ++ fqdn ++ ":" ++ toString port ++ "/"
  else "http://" ++ fqdn ++ ":" ++ toString port ++ "/"

/-- URL for the WordPress login probe (lines 63-65). -/
def wpLoginUrl (fqdn : String) (port : Nat) : String :=
  if port = 443 then "https://" ++ fqdn ++ ":" ++ toString port ++ "/wp-login.php"
  else "http://" ++ fqdn ++ ":" ++ toString port ++ "/wp-login.php"

/-- URL for the robots.txt probe (lines 81-83). -/
def robotsUrl (fqdn : String) (port : Nat) : String :=
  if port = 443 then "https://" ++ fqdn ++ ":" ++ toString port ++ "/robots.txt"
  else "http://" ++ fqdn ++ ":" ++ toString port ++ "/robots.txt"

/-- `grab_banner` (lines 52-60): HEAD the root URL; on success return the
`Server` header (default `"Unknown"`) and the status code, on
`RequestException` return `("No Response", None)`. -/
def grab_banner (net : Net) (fqdn : String) (port : Nat) : String × Option Nat :=
  match net.head (rootUrl fqdn port) with
  | some response => (response.server.getD "Unknown", some response.status)
  | none => ("No Response", none)

/-- `termcolor.colored(text, color)` for the three colors the script
uses: ANSI SGR wrapping (green 32, red 31, blue 34). -/
def colored (text color : String) : String :=
  let code := if color = "green" then "32" else if color = "red" then "31" else "34"
  "\x1b[" ++ code ++ "m" ++ text ++ "\x1b[0m"

/-- Python `needle in content` on strings: substring containment. -/
def containsSub (content needle : String) : Bool :=
  decide (needle.toList <:+: content.toList)

/-- Python `str.lower()` restricted to ASCII case folding (the
signature strings the script matches are ASCII); defined by structural
recursion over the character list so it evaluates inside the kernel. -/
def pyLower (s : String) : String := String.mk (s.toList.map Char.toLower)

/-- Whether `tail` is a suffix of `s` (used to observe the trailing
`Dynamic DNS` field of a report row). -/
def endsWithStr (s tail : String) : Bool :=
  decide (tail.toList <:+ s.toList)

/-- `check_wordpress` (lines 62-78): GET `/wp-login.php`; on a response,
the green "WordPress detected!" outcome iff status 200 and the
lower-cased body contains one of the three WordPress signatures,
otherwise the red "No WordPress instance found." outcome, both carrying
the status code; `("No Response", None)` on `RequestException`. -/
def check_wordpress (net : Net) (fqdn : String) (port : Nat) : String × Option Nat :=
  match net.get (wpLoginUrl fqdn port) with
  | some response =>
    if response.status = 200 &&
        (containsSub (pyLower response.body) "username or email address" ||
         containsSub (pyLower response.body) "wp-includes" ||
         containsSub (pyLower response.body) "https://wordpress.org") then
      (colored "WordPress detected!" "green", some response.status)
    else
      (colored "No WordPress instance found." "red", some response.status)
  | none => ("No Response", none)

/-- `check_robots` (lines 80-92): GET `/robots.txt`; found iff status 200
and the lower-cased body contains `"user-agent:"` or `"disallow:"`. -/
def check_robots (net : Net) (fqdn : String) (port : Nat) : String × Option Nat :=
  match net.get (robotsUrl fqdn port) with
  | some response =>
    if response.status = 200 &&
        (containsSub (pyLower response.body) "user-agent:" ||
         containsSub (pyLower response.body) "disallow:") then
      (colored "robots.txt found!" "green", some response.status)
    else
      (colored "No robots.txt found." "red", some response.status)
  | none => ("No Response", none)

/-- Python `f"{s:<w}"`: left-align `s` in a field of width `w`, padding
with spaces (no truncation). -/
def padTo (s : String) (w : Nat) : String :=
  s ++ String.mk (List.replicate (w - s.length) ' ')

/-- Truthiness of `status_code` at line 126 (`if not status_code`):
Python treats both `None` and `0` as falsy. -/
def truthyCode : Option Nat → Bool
  | none => false
  | some c => decide (c ≠ 0)

/-- Side effects of one iteration of the scan loop, used to observe which
probe call sites actually execute: the `detect_dynamic_dns` call at line
129 and the two content probes at lines 137 and 141. -/
inductive Event where
  | detect (fqdn : String)
  | wordpress (url : String)
  | robotsFetch (url : String)
deriving DecidableEq

/-- The report line assembled at lines 129-144 for a target that passed
the reachability gate with status code `sc` and banner `banner`. -/
def rowFor (net : Net) (wp robots : Bool) (fqdn : String) (port sc : Nat)
    (banner : String) : String :=
  let dynamic_dns := if detect_dynamic_dns (net.dynLookup fqdn) then "Yes" else "No"
  let line1 := padTo fqdn 30 ++ " " ++ padTo (toString port) 5 ++ " " ++
    padTo (toString sc) 5 ++ " "
  let line2 := if 300 ≤ sc ∧ sc < 400 then line1 ++ colored (toString sc) "blue" ++ " "
    else line1
  let line3 := if wp then line2 ++ padTo (check_wordpress net fqdn port).1 40 ++ " "
    else line2
  let line4 := if robots then line3 ++ padTo (check_robots net fqdn port).1 40 ++ " "
    else line3
  line4 ++ padTo banner 20 ++ " Dynamic DNS: " ++ dynamic_dns

/-- Body of the scan loop (lines 125-145) for one `(fqdn, port)` target:
the reachability probe, the `continue` when `status_code` is falsy, and
otherwise the assembled report row.  The second component records the
probe call sites that execute for this target, in execution order. -/
def scanTargetAux (net : Net) (wp robots : Bool) (fqdn : String) (port : Nat) :
    Option String × List Event :=
  match grab_banner net fqdn port with
  | (_, none) => (none, [])
  | (banner, some sc) =>
    if sc = 0 then (none, [])
    else
      (some (rowFor net wp robots fqdn port sc banner),
        Event.detect fqdn ::
          ((if wp then [Event.wordpress (wpLoginUrl fqdn port)] else []) ++
            (if robots then [Event.robotsFetch (robotsUrl fqdn port)] else [])))

/-- The row (if any) emitted for one `(fqdn, port)` target. -/
def scanTarget (net : Net) (wp robots : Bool) (fqdn : String) (port : Nat) :
    Option String :=
  (scanTargetAux net wp robots fqdn port).1

/-- The probe call sites that execute for one `(fqdn, port)` target. -/
def scanTargetEvents (net : Net) (wp robots : Bool) (fqdn : String) (port : Nat) :
    List Event :=
  (scanTargetAux net wp robots fqdn port).2

/-- Auxiliary for `pyDictKeys`: the keys of `l` not already in `seen`,
each at its first occurrence. -/
def pyDictKeysAux {α : Type} [DecidableEq α] : List α → List α → List α
  | [], _ => []
  | a :: l, seen =>
    if a ∈ seen then pyDictKeysAux l seen else a :: pyDictKeysAux l (a :: seen)

/-- Key list of a Python dict built by repeated insertion: each distinct
key once, in order of first insertion.  Models the iteration order of
`grouped_fqdns` (a `defaultdict` filled at lines 118-119). -/
def pyDictKeys {α : Type} [DecidableEq α] (l : List α) : List α :=
  pyDictKeysAux l []

/-- The scan loop of `main` (lines 115-150): resolve every normalized
name, group names by resolved address in first-encounter order, and for
each group, each name, each port, run the loop body; after each group
append one empty separator line.  Returns the `results` list together
with the trace of probe call sites in execution order. -/
def mainScanAux (net : Net) (fqdns : List String) (wp robots : Bool)
    (ports : List Nat) : List String × List Event :=
  let normalized_fqdns := normalize_fqdns fqdns
  let fqdn_to_ip := normalized_fqdns.map (fun fqdn => (fqdn, resolve_ip net fqdn))
  let ipKeys := pyDictKeys (fqdn_to_ip.map Prod.snd)
  let perGroup := ipKeys.map (fun ip =>
    let groupFqdns := (fqdn_to_ip.filter (fun pr => pr.2 = ip)).map Prod.fst
    let targets := groupFqdns.flatMap (fun fqdn =>
      ports.map (fun port => scanTargetAux net wp robots fqdn port))
    (targets.filterMap Prod.fst ++ [""], targets.flatMap Prod.snd))
  ((perGroup.map Prod.fst).flatten, (perGroup.map Prod.snd).flatten)

/-- The `results` list printed by `main`. -/
def mainScan (net : Net) (fqdns : List String) (wp robots : Bool)
    (ports : List Nat) : List String :=
  (mainScanAux net fqdns wp robots ports).1

/-- The probe call sites executed by the whole scan, in order. -/
def mainScanEvents (net : Net) (fqdns : List String) (wp robots : Bool)
    (ports : List Nat) : List Event :=
  (mainScanAux net fqdns wp robots ports).2

/-- The hosts grouped under resolved address `ip`, in the order `main`
processes them. -/
def groupHosts (net : Net) (fqdns : List String) (ip : Option String) :
    List String :=
  (((normalize_fqdns fqdns).map (fun f => (f, resolve_ip net f))).filter
    (fun pr => pr.2 = ip)).map Prod.fst

/-- The report rows emitted for the address group `ip`, in order. -/
def groupRows (net : Net) (wp robots : Bool) (ports : List Nat)
    (fqdns : List String) (ip : Option String) : List String :=
  (groupHosts net fqdns ip).flatMap
    (fun f => ports.filterMap (fun p => scanTarget net wp robots f p))

/-- Guarantee provided by the Python HTTP stack: `http.client` rejects
any status line whose code is outside 100..999 (`BadStatusLine`, which
surfaces as a `RequestException`), so every `Response` a `Net` oracle
can actually deliver carries a status code in that range — in
particular a nonzero one. -/
def HttpStatusesValid (net : Net) : Prop :=
  ∀ url r, net.head url = some r → 100 ≤ r.status ∧ r.status ≤ 999

/-- A test network where every target is reachable (HTTP 200, `Server:
Apache`), content probes answer 404, and every resolution yields the
single address `1.1.1.1`. -/
def netA : Net where
  gethostbyname := fun _ => some "1.1.1.1"
  dynLookup := fun _ _ => some "1.1.1.1"
  head := fun _ => some { status := 200, server := some "Apache", body := "" }
  get := fun _ => some { status := 404, server := none, body := "" }

/-- A test network whose repeated dynamic-DNS resolutions observe two
distinct addresses. -/
def netDyn : Net where
  gethostbyname := fun _ => some "1.1.1.1"
  dynLookup := fun _ i => if i = 0 then some "1.1.1.1" else some "2.2.2.2"
  head := fun _ => some { status := 200, server := some "Apache", body := "" }
  get := fun _ => some { status := 404, server := none, body := "" }

/-- A test network where both content probes fail at transport level
while the reachability probe succeeds. -/
def netNoContent : Net where
  gethostbyname := fun _ => some "1.1.1.1"
  dynLookup := fun _ _ => some "1.1.1.1"
  head := fun _ => some { status := 200, server := some "nginx", body := "" }
  get := fun _ => none

/-- A test network where every target is reachable except `a.com` on
port 8080, and `a.com` resolves to a different address than every other
name. -/
def netMixed : Net where
  gethostbyname := fun f => if f = "a.com" then some "1.1.1.1" else some "2.2.2.2"
  dynLookup := fun _ _ => some "1.1.1.1"
  head := fun u => if u = rootUrl "a.com" 8080 then none
    else some { status := 200, server := some "Apache", body := "" }
  get := fun _ => some { status := 404, server := none, body := "" }

/-- Resolution attempts for the dynamic-DNS detector where the second
attempt fails and the attempts around it observe two distinct
addresses. -/
def resMidFail : Nat → Option String :=
  fun i => if i = 1 then none else if i = 0 then some "1.1.1.1" else some "2.2.2.2"

/-- A test network whose content probes answer 200 with a plain HTML
body carrying no WordPress or robots signature. -/
def netHtml : Net where
  gethostbyname := fun _ => some "1.1.1.1"
  dynLookup := fun _ _ => some "1.1.1.1"
  head := fun _ => some { status := 200, server := some "Apache", body := "" }
  get := fun _ => some { status := 200, server := none, body := "<html>hello</html>" }

/-- A test network whose content probes answer 200 with a mixed-case
WordPress signature in the body. -/
def netWpBody : Net where
  gethostbyname := fun _ => some "1.1.1.1"
  dynLookup := fun _ _ => some "1.1.1.1"
  head := fun _ => some { status := 200, server := some "Apache", body := "" }
  get := fun _ => some { status := 200, server := none, body := "Username or Email Address" }

/-!  Order-theoretic facts about the string comparison used by the
normalizer, and the basic shape of its output. -/

theorem charListLe_iff : ∀ xs ys : List Char, charListLe xs ys = true ↔ ¬ List.Lex (· < ·) ys xs
  | [], ys => by
    simp [charListLe, List.Lex.not_nil_right]
  | x :: xs, [] => by
    simp [charListLe]
    exact List.Lex.nil
  | x :: xs, y :: ys => by
    rcases lt_trichotomy x y with h | h | h
    · simp only [charListLe, if_pos h, true_iff]
      intro hlex
      cases hlex with
      | rel hr => exact absurd h (asymm hr)
      | cons _ => exact lt_irrefl x h
    · subst h
      simp only [charListLe, lt_irrefl, if_neg (lt_irrefl x), List.Lex.cons_iff]
      exact charListLe_iff xs ys
    · simp only [charListLe, if_neg (asymm h), if_pos h, Bool.false_eq_true, false_iff, not_not]
      exact List.Lex.rel h

theorem strLe_iff_le (a b : String) : strLe a b = true ↔ a ≤ b := by
  rw [String.le_iff_toList_le, ← not_lt]
  show charListLe a.toList b.toList = true ↔ ¬ b.toList < a.toList
  rw [charListLe_iff]
  constructor
  · intro h hc
    exact h ((List.lt_iff_lex_lt _ _).mp ((List.lt_iff_lex_lt _ _).mpr hc))
  · intro h hc
    exact h hc

instance : IsTotal String (fun a b => strLe a b = true) :=
  ⟨fun a b => by rw [strLe_iff_le, strLe_iff_le]; exact le_total a b⟩

instance : IsTrans String (fun a b => strLe a b = true) :=
  ⟨fun a b c hab hbc => by
    rw [strLe_iff_le] at hab hbc ⊢; exact le_trans hab hbc⟩

theorem pySorted_perm (l : List String) : List.Perm (pySorted l) l :=
  List.perm_insertionSort _ l

theorem mem_pySorted {a : String} {l : List String} : a ∈ pySorted l ↔ a ∈ l :=
  (pySorted_perm l).mem_iff

theorem sorted_pySorted (l : List String) : (pySorted l).Sorted (· ≤ ·) :=
  (List.sorted_insertionSort _ l).imp (fun h => (strLe_iff_le _ _).mp h)

theorem mem_normalize_fqdns {y : String} {X : List String} :
    y ∈ normalize_fqdns X ↔ ∃ f, f ∈ X ∧ (y = stripWww f ∨ y = "www." ++ stripWww f) := by
  simp only [normalize_fqdns, mem_pySorted, List.mem_dedup, List.mem_flatMap, List.mem_map,
    List.mem_cons, List.mem_singleton, List.not_mem_nil, or_false]
  constructor
  · rintro ⟨a, ⟨f, hf, rfl⟩, h⟩
    exact ⟨f, hf, h⟩
  · rintro ⟨f, hf, h⟩
    exact ⟨stripWww f, ⟨f, hf, rfl⟩, h⟩

theorem nodup_normalize_fqdns (X : List String) : (normalize_fqdns X).Nodup := by
  unfold normalize_fqdns
  exact ((pySorted_perm _).nodup_iff).mpr (List.nodup_dedup _)

theorem sorted_normalize_fqdns (X : List String) : (normalize_fqdns X).Sorted (· ≤ ·) :=
  sorted_pySorted _

/-!  Facts about Python `str.strip` and the `www.` prefix handling,
needed to settle the idempotence claim. -/

theorem mk_toList (s : String) : String.mk s.toList = s := rfl

theorem dropWhile_eq_self_of_stripChars {l : List Char} (h : stripChars l = l) :
    l.dropWhile isPySpace = l ∧ l.reverse.dropWhile isPySpace = l.reverse := by
  unfold stripChars at h
  have h1 : (l.dropWhile isPySpace).length ≤ l.length :=
    ((List.dropWhile_suffix _).sublist).length_le
  have h2 : ((l.dropWhile isPySpace).reverse.dropWhile isPySpace).length ≤
      (l.dropWhile isPySpace).length := by
    simpa using ((List.dropWhile_suffix (l := (l.dropWhile isPySpace).reverse)
      isPySpace).sublist).length_le
  have hlen : (((l.dropWhile isPySpace).reverse.dropWhile isPySpace).reverse).length = l.length := by
    rw [h]
  simp only [List.length_reverse] at hlen
  have e1 : l.dropWhile isPySpace = l :=
    ((List.dropWhile_suffix _).sublist).eq_of_length (Nat.le_antisymm h1 (hlen ▸ h2))
  refine ⟨e1, ?_⟩
  have e2 : (l.dropWhile isPySpace).reverse.dropWhile isPySpace = (l.dropWhile isPySpace).reverse :=
    ((List.dropWhile_suffix _).sublist).eq_of_length (by rw [e1] at hlen ⊢; simpa using hlen)
  rw [e1] at e2
  exact e2

theorem dropWhile_append_of_ne {l m : List Char} (hl : l.dropWhile isPySpace = l)
    (hne : l ≠ []) : (l ++ m).dropWhile isPySpace = l ++ m := by
  cases l with
  | nil => exact absurd rfl hne
  | cons a t =>
    have hpa : isPySpace a = false := by
      by_contra hp
      rw [List.dropWhile_cons_of_pos (by simpa using hp)] at hl
      have hlen := congrArg List.length hl
      have hle : (t.dropWhile isPySpace).length ≤ t.length :=
        ((List.dropWhile_suffix _).sublist).length_le
      simp only [List.length_cons] at hlen
      omega
    rw [List.cons_append, List.dropWhile_cons_of_neg (by simp [hpa])]

theorem stripWww_eq_self {b : String} (h1 : stripChars b.toList = b.toList)
    (h2 : ¬ (['w', 'w', 'w', '.'] <+: b.toList)) : stripWww b = b := by
  unfold stripWww
  rw [h1]
  have hcond : (['w', 'w', 'w', '.'].isPrefixOf b.toList) = false := by
    rw [← Bool.not_eq_true, List.isPrefixOf_iff_prefix]
    exact h2
  simp only [hcond, Bool.false_eq_true, if_false, mk_toList]

theorem stripWww_www {b : String} (h1 : stripChars b.toList = b.toList) :
    stripWww ("www." ++ b) = b := by
  have htl : ("www." ++ b).toList = ['w', 'w', 'w', '.'] ++ b.toList := by
    show ("www." ++ b).data = _
    rw [String.data_append]
    rfl
  have hstrip : stripChars (['w', 'w', 'w', '.'] ++ b.toList) =
      ['w', 'w', 'w', '.'] ++ b.toList := by
    unfold stripChars
    rw [dropWhile_append_of_ne (by decide) (by decide)]
    rcases List.eq_nil_or_concat b.toList with hb | ⟨l2, c, hb⟩
    · rw [hb]
      decide
    · rw [hb, List.concat_eq_append]
      have hrev : ((['w', 'w', 'w', '.'] ++ (l2 ++ [c])).reverse) =
          (c :: l2.reverse) ++ ['.', 'w', 'w', 'w'] := by
        simp
      rw [hrev, dropWhile_append_of_ne ?_ (by simp)]
      · simp
      · have := (dropWhile_eq_self_of_stripChars h1).2
        rw [hb, List.concat_eq_append] at this
        simpa using this
  unfold stripWww
  rw [htl, hstrip]
  have hcond : ((['w', 'w', 'w', '.'] : List Char).isPrefixOf
      (['w', 'w', 'w', '.'] ++ b.toList)) = true := by
    rw [List.isPrefixOf_iff_prefix]
    exact List.prefix_append _ _
  simp only [hcond, if_true]
  rw [List.drop_left' (by rfl)]
  exact mk_toList b

/-- Two inputs with the same set of base names normalize identically:
the output is the sorted deduplication of a set determined by the base
names alone. -/
theorem normalize_eq_of_base_iff {X Y : List String}
    (h : ∀ b, (∃ f, f ∈ X ∧ b = stripWww f) ↔ (∃ f, f ∈ Y ∧ b = stripWww f)) :
    normalize_fqdns X = normalize_fqdns Y := by
  apply List.eq_of_perm_of_sorted _ (sorted_normalize_fqdns X) (sorted_normalize_fqdns Y)
  rw [List.perm_ext_iff_of_nodup (nodup_normalize_fqdns X) (nodup_normalize_fqdns Y)]
  intro y
  rw [mem_normalize_fqdns, mem_normalize_fqdns]
  constructor
  · rintro ⟨f, hf, hy⟩
    obtain ⟨g, hg, hb⟩ := (h (stripWww f)).mp ⟨f, hf, rfl⟩
    exact ⟨g, hg, by rw [← hb]; exact hy⟩
  · rintro ⟨f, hf, hy⟩
    obtain ⟨g, hg, hb⟩ := (h (stripWww f)).mpr ⟨f, hf, rfl⟩
    exact ⟨g, hg, by rw [← hb]; exact hy⟩

namespace ListFacts

theorem mem_pyDictKeysAux {α : Type} [DecidableEq α] :
    ∀ {l seen : List α} {a : α}, a ∈ pyDictKeysAux l seen ↔ a ∈ l ∧ a ∉ seen
  | [], seen, a => by simp [pyDictKeysAux]
  | b :: l, seen, a => by
    by_cases hb : b ∈ seen
    · rw [pyDictKeysAux, if_pos hb, mem_pyDictKeysAux]
      constructor
      · rintro ⟨h1, h2⟩
        exact ⟨List.mem_cons_of_mem _ h1, h2⟩
      · rintro ⟨h1, h2⟩
        rcases List.mem_cons.mp h1 with rfl | h1
        · exact absurd hb h2
        · exact ⟨h1, h2⟩
    · rw [pyDictKeysAux, if_neg hb]
      by_cases hab : a = b
      · subst hab
        constructor
        · intro _
          exact ⟨List.mem_cons_self a l, hb⟩
        · intro _
          exact List.mem_cons_self a _
      · constructor
        · intro h
          rcases List.mem_cons.mp h with h | h
          · exact absurd h hab
          · obtain ⟨h1, h2⟩ := mem_pyDictKeysAux.mp h
            exact ⟨List.mem_cons_of_mem _ h1,
              fun hc => h2 (List.mem_cons_of_mem _ hc)⟩
        · rintro ⟨h1, h2⟩
          rcases List.mem_cons.mp h1 with rfl | h1
          · exact absurd rfl hab
          · refine List.mem_cons_of_mem _ (mem_pyDictKeysAux.mpr ⟨h1, ?_⟩)
            intro hc
            rcases List.mem_cons.mp hc with rfl | hc
            · exact hab rfl
            · exact h2 hc

theorem nodup_pyDictKeysAux {α : Type} [DecidableEq α] :
    ∀ (l seen : List α), (pyDictKeysAux l seen).Nodup
  | [], _ => by simp [pyDictKeysAux]
  | b :: l, seen => by
    by_cases hb : b ∈ seen
    · rw [pyDictKeysAux, if_pos hb]
      exact nodup_pyDictKeysAux l seen
    · rw [pyDictKeysAux, if_neg hb]
      refine List.Nodup.cons ?_ (nodup_pyDictKeysAux l (b :: seen))
      intro hmem
      exact (mem_pyDictKeysAux.mp hmem).2 (List.mem_cons_self b seen)

theorem sublist_pyDictKeysAux {α : Type} [DecidableEq α] :
    ∀ (l seen : List α), List.Sublist (pyDictKeysAux l seen) l
  | [], _ => by simp [pyDictKeysAux]
  | b :: l, seen => by
    by_cases hb : b ∈ seen
    · rw [pyDictKeysAux, if_pos hb]
      exact (sublist_pyDictKeysAux l seen).cons b
    · rw [pyDictKeysAux, if_neg hb]
      exact (sublist_pyDictKeysAux l (b :: seen)).cons₂ b

theorem indexOf_pyDictKeysAux {α : Type} [DecidableEq α] :
    ∀ {l seen : List α} {x y : α}, x ∈ pyDictKeysAux l seen → y ∈ pyDictKeysAux l seen →
      x ≠ y →
      ((pyDictKeysAux l seen).indexOf x < (pyDictKeysAux l seen).indexOf y ↔
        l.indexOf x < l.indexOf y)
  | [], seen, x, y => by simp [pyDictKeysAux]
  | b :: l, seen, x, y => by
    intro hx hy hxy
    by_cases hb : b ∈ seen
    · rw [pyDictKeysAux, if_pos hb] at hx hy ⊢
      have hxb : x ≠ b := fun h => (mem_pyDictKeysAux.mp hx).2 (h ▸ hb)
      have hyb : y ≠ b := fun h => (mem_pyDictKeysAux.mp hy).2 (h ▸ hb)
      rw [List.indexOf_cons_ne _ (Ne.symm hxb), List.indexOf_cons_ne _ (Ne.symm hyb)]
      rw [indexOf_pyDictKeysAux hx hy hxy]
      omega
    · rw [pyDictKeysAux, if_neg hb] at hx hy ⊢
      by_cases hxb : x = b
      · subst hxb
        have hyx : y ≠ x := fun h => hxy h.symm
        have hy2 : y ∈ pyDictKeysAux l (x :: seen) := by
          rcases List.mem_cons.mp hy with h | h
          · exact absurd h.symm hxy
          · exact h
        rw [List.indexOf_cons_self, List.indexOf_cons_self, List.indexOf_cons_ne _ (Ne.symm hyx),
          List.indexOf_cons_ne _ (Ne.symm hyx)]
        omega
      · by_cases hyb : y = b
        · subst hyb
          rw [List.indexOf_cons_self, List.indexOf_cons_self, List.indexOf_cons_ne _ (Ne.symm hxb),
            List.indexOf_cons_ne _ (Ne.symm hxb)]
          omega
        · have hx2 : x ∈ pyDictKeysAux l (b :: seen) := by
            rcases List.mem_cons.mp hx with h | h
            · exact absurd h hxb
            · exact h
          have hy2 : y ∈ pyDictKeysAux l (b :: seen) := by
            rcases List.mem_cons.mp hy with h | h
            · exact absurd h hyb
            · exact h
          rw [List.indexOf_cons_ne _ (Ne.symm hxb), List.indexOf_cons_ne _ (Ne.symm hyb),
            List.indexOf_cons_ne _ (Ne.symm hxb), List.indexOf_cons_ne _ (Ne.symm hyb)]
          simp only [Nat.succ_lt_succ_iff]
          exact indexOf_pyDictKeysAux hx2 hy2 hxy

end ListFacts

theorem mem_pyDictKeys {α : Type} [DecidableEq α] {l : List α} {a : α} :
    a ∈ pyDictKeys l ↔ a ∈ l := by
  rw [pyDictKeys, ListFacts.mem_pyDictKeysAux]
  simp

theorem nodup_pyDictKeys {α : Type} [DecidableEq α] (l : List α) :
    (pyDictKeys l).Nodup :=
  ListFacts.nodup_pyDictKeysAux l []

theorem sublist_pyDictKeys {α : Type} [DecidableEq α] (l : List α) :
    List.Sublist (pyDictKeys l) l :=
  ListFacts.sublist_pyDictKeysAux l []

theorem indexOf_pyDictKeys {α : Type} [DecidableEq α] {l : List α} {x y : α}
    (hx : x ∈ pyDictKeys l) (hy : y ∈ pyDictKeys l) (hxy : x ≠ y) :
    ((pyDictKeys l).indexOf x < (pyDictKeys l).indexOf y ↔
      l.indexOf x < l.indexOf y) :=
  ListFacts.indexOf_pyDictKeysAux hx hy hxy

-- detector lemmas
theorem detect_false_of_fail (res : Nat → Option String)
    (h : ∃ i, i < 3 ∧ res i = none) : detect_dynamic_dns res = false := by
  obtain ⟨i, hi, hnone⟩ := h
  unfold detect_dynamic_dns
  have h3 : i = 0 ∨ i = 1 ∨ i = 2 := by omega
  rcases h3 with rfl | rfl | rfl
  · simp [dynLoop, hnone]
  · cases h0 : res 0 with
    | none => simp [dynLoop, h0]
    | some a => simp [dynLoop, h0, hnone]
  · cases h0 : res 0 with
    | none => simp [dynLoop, h0]
    | some a =>
      cases h1 : res 1 with
      | none => simp [dynLoop, h0, h1]
      | some b => simp [dynLoop, h0, h1, hnone]

theorem detect_of_all_some (res : Nat → Option String) (a0 a1 a2 : String)
    (h0 : res 0 = some a0) (h1 : res 1 = some a1) (h2 : res 2 = some a2) :
    detect_dynamic_dns res = decide (¬ (a1 = a0 ∧ a2 = a0)) := by
  unfold detect_dynamic_dns
  by_cases e1 : a1 = a0
  · subst e1
    by_cases e2 : a2 = a1
    · subst e2
      simp [dynLoop, h0, h1, h2]
    · simp [dynLoop, h0, h1, h2, e2]
  · by_cases m : a2 = a1
    · subst m
      simp [dynLoop, h0, h1, h2, e1]
    · by_cases m2 : a2 = a0
      · subst m2
        simp [dynLoop, h0, h1, h2, e1]
      · simp [dynLoop, h0, h1, h2, e1, m, m2]

theorem check_wordpress_none (net : Net) (f : String) (p : Nat)
    (h : net.get (wpLoginUrl f p) = none) :
    check_wordpress net f p = ("No Response", none) := by
  unfold check_wordpress
  rw [h]

theorem check_robots_none (net : Net) (f : String) (p : Nat)
    (h : net.get (robotsUrl f p) = none) :
    check_robots net f p = ("No Response", none) := by
  unfold check_robots
  rw [h]

theorem check_wordpress_some_snd (net : Net) (f : String) (p : Nat) (r : Response)
    (h : net.get (wpLoginUrl f p) = some r) :
    (check_wordpress net f p).2 = some r.status := by
  unfold check_wordpress
  rw [h]
  dsimp only
  by_cases hc : (decide (r.status = 200) &&
      (containsSub (pyLower r.body) "username or email address" ||
       containsSub (pyLower r.body) "wp-includes" ||
       containsSub (pyLower r.body) "https://wordpress.org")) = true
  · rw [if_pos hc]
  · rw [if_neg hc]

theorem check_robots_some_snd (net : Net) (f : String) (p : Nat) (r : Response)
    (h : net.get (robotsUrl f p) = some r) :
    (check_robots net f p).2 = some r.status := by
  unfold check_robots
  rw [h]
  dsimp only
  by_cases hc : (decide (r.status = 200) &&
      (containsSub (pyLower r.body) "user-agent:" ||
       containsSub (pyLower r.body) "disallow:")) = true
  · rw [if_pos hc]
  · rw [if_neg hc]

theorem check_wordpress_found_iff (net : Net) (f : String) (p : Nat) (r : Response)
    (h : net.get (wpLoginUrl f p) = some r) :
    (check_wordpress net f p = (colored "WordPress detected!" "green", some r.status) ↔
      (r.status = 200 ∧ (containsSub (pyLower r.body) "username or email address" = true ∨
        containsSub (pyLower r.body) "wp-includes" = true ∨
        containsSub (pyLower r.body) "https://wordpress.org" = true))) ∧
    (check_wordpress net f p = (colored "WordPress detected!" "green", some r.status) ∨
      check_wordpress net f p = (colored "No WordPress instance found." "red", some r.status)) := by
  unfold check_wordpress
  rw [h]
  dsimp only
  by_cases hc : (decide (r.status = 200) &&
      (containsSub (pyLower r.body) "username or email address" ||
       containsSub (pyLower r.body) "wp-includes" ||
       containsSub (pyLower r.body) "https://wordpress.org")) = true
  · rw [if_pos hc]
    simp only [Bool.and_eq_true, Bool.or_eq_true, decide_eq_true_eq] at hc
    refine ⟨⟨fun _ => ?_, fun _ => rfl⟩, Or.inl rfl⟩
    obtain ⟨h200, hsig⟩ := hc
    exact ⟨h200, by tauto⟩
  · rw [if_neg hc]
    simp only [Bool.and_eq_true, Bool.or_eq_true, decide_eq_true_eq] at hc
    constructor
    · constructor
      · intro he
        have : colored "No WordPress instance found." "red" =
            colored "WordPress detected!" "green" := congrArg Prod.fst he
        exact absurd this (by decide)
      · intro hp
        exact absurd ⟨hp.1, by tauto⟩ hc
    · exact Or.inr rfl

theorem scanTarget_eq (net : Net) (wp robots : Bool) (f : String) (p : Nat) :
    scanTarget net wp robots f p =
      if truthyCode (grab_banner net f p).2 = true
      then some (rowFor net wp robots f p (((grab_banner net f p).2).getD 0)
        ((grab_banner net f p).1))
      else none := by
  unfold scanTarget scanTargetAux
  rcases hg : grab_banner net f p with ⟨b, sc⟩
  cases sc with
  | none => simp [truthyCode]
  | some c =>
    by_cases h0 : c = 0
    · subst h0
      simp [truthyCode]
    · simp [truthyCode, h0]

theorem scanTargetAux_of_not_truthy (net : Net) (wp robots : Bool) (f : String) (p : Nat)
    (h : truthyCode (grab_banner net f p).2 = false) :
    scanTargetAux net wp robots f p = (none, []) := by
  unfold scanTargetAux
  rcases hg : grab_banner net f p with ⟨b, sc⟩
  cases sc with
  | none => rfl
  | some c =>
    rw [hg] at h
    simp only [truthyCode, decide_eq_false_iff_not, not_not] at h
    simp [h]

theorem detect_event_iff (net : Net) (wp robots : Bool) (f : String) (p : Nat) :
    Event.detect f ∈ scanTargetEvents net wp robots f p ↔
      truthyCode (grab_banner net f p).2 = true := by
  unfold scanTargetEvents scanTargetAux
  rcases hg : grab_banner net f p with ⟨b, sc⟩
  cases sc with
  | none => simp [truthyCode]
  | some c =>
    by_cases h0 : c = 0
    · subst h0
      simp [truthyCode]
    · simp [truthyCode, h0]

theorem endsWith_dyn (A d : String) :
    endsWithStr (A ++ " Dynamic DNS: " ++ d) ("Dynamic DNS: " ++ d) = true := by
  unfold endsWithStr
  rw [decide_eq_true_eq]
  refine ⟨A.toList ++ [' '], ?_⟩
  show (A.toList ++ [' ']) ++ ("Dynamic DNS: " ++ d).data = (A ++ " Dynamic DNS: " ++ d).data
  rw [String.data_append, String.data_append, String.data_append]
  have hsp : (" Dynamic DNS: " : String).data = ' ' :: ("Dynamic DNS: " : String).data := by
    decide
  rw [hsp]
  show (A.data ++ [' ']) ++ (("Dynamic DNS: " : String).data ++ d.data) = _
  simp

theorem row_dynamic_suffix (net : Net) (wp robots : Bool) (f : String) (p : Nat)
    (row : String) (h : scanTarget net wp robots f p = some row) :
    endsWithStr row ("Dynamic DNS: " ++
      (if detect_dynamic_dns (net.dynLookup f) then "Yes" else "No")) = true := by
  rw [scanTarget_eq] at h
  by_cases ht : truthyCode (grab_banner net f p).2 = true
  · rw [if_pos ht] at h
    have hrow : row = rowFor net wp robots f p (((grab_banner net f p).2).getD 0)
        ((grab_banner net f p).1) := by
      injection h with h
      exact h.symm
    subst hrow
    simp only [rowFor]
    exact endsWith_dyn _ _
  · rw [if_neg ht] at h
    exact absurd h (by simp)

/-- C1: a report row exists for a target iff the reachability probe
returned a status code; on transport failure the target yields no row,
no content-probe call site executes, and the scan function is total (no
error propagates).  The hypothesis `HttpStatusesValid` records the
guarantee of Python's HTTP stack that any delivered status code lies in
100..999 (so the `if not status_code` test at line 126 coincides with
the status code being present). -/
theorem claim1 (net : Net) (wp robots : Bool) (f : String) (p : Nat)
    (hvalid : HttpStatusesValid net) :
    (((scanTarget net wp robots f p).isSome = true) ↔
      ∃ c, (grab_banner net f p).2 = some c) ∧
    ((grab_banner net f p).2 = none →
      scanTargetAux net wp robots f p = (none, [])) := by
  constructor
  · rw [scanTarget_eq]
    cases hh : net.head (rootUrl f p) with
    | none =>
      have hg : grab_banner net f p = ("No Response", none) := by
        unfold grab_banner
        rw [hh]
      rw [hg]
      simp [truthyCode]
    | some r =>
      have hg : grab_banner net f p = (r.server.getD "Unknown", some r.status) := by
        unfold grab_banner
        rw [hh]
      have hpos : 100 ≤ r.status := (hvalid _ _ hh).1
      rw [hg]
      simp only [truthyCode]
      have : r.status ≠ 0 := by omega
      simp [this]
  · intro h
    apply scanTargetAux_of_not_truthy
    rw [h]
    rfl

/-- C1 witness: a concrete reachable target carries the equivalence. -/
theorem claim1_witness :
    HttpStatusesValid netA ∧
      (((scanTarget netA true true "a.com" 80).isSome = true) ↔
        ∃ c, (grab_banner netA "a.com" 80).2 = some c) := by
  have hv : HttpStatusesValid netA := by
    intro url r h
    injection h with h
    rw [← h]
    constructor <;> norm_num
  exact ⟨hv, (claim1 netA true true "a.com" 80 hv).1⟩

/-- C2 counterexample: the normalizer is not idempotent.  On input
`["www.www.a.com"]` one pass yields `["www.a.com", "www.www.a.com"]`,
whose renormalization strips `www.` from `www.a.com` and introduces the
new base `a.com`, producing a strictly larger set. -/
theorem claim2_counterexample :
    normalize_fqdns (normalize_fqdns ["www.www.a.com"]) ≠
      normalize_fqdns ["www.www.a.com"] := by decide

/-- C2 amended: the normalizer is idempotent on inputs whose base names
(after the `strip()` and the removal of one leading `"www."`) carry no
surrounding whitespace and do not themselves begin with `"www."`. -/
theorem claim2 (X : List String)
    (H : ∀ f, f ∈ X → stripChars (stripWww f).toList = (stripWww f).toList ∧
      ¬ (['w', 'w', 'w', '.'] <+: (stripWww f).toList)) :
    normalize_fqdns (normalize_fqdns X) = normalize_fqdns X := by
  apply normalize_eq_of_base_iff
  intro b
  constructor
  · rintro ⟨g, hg, rfl⟩
    obtain ⟨f, hf, hy⟩ := mem_normalize_fqdns.mp hg
    obtain ⟨hc, hw⟩ := H f hf
    rcases hy with rfl | rfl
    · exact ⟨f, hf, stripWww_eq_self hc hw⟩
    · exact ⟨f, hf, stripWww_www hc⟩
  · rintro ⟨f, hf, rfl⟩
    obtain ⟨hc, hw⟩ := H f hf
    refine ⟨stripWww f, mem_normalize_fqdns.mpr ⟨f, hf, Or.inl rfl⟩, ?_⟩
    exact (stripWww_eq_self hc hw).symm

/-- C2 witness: idempotence on a concrete well-formed input. -/
theorem claim2_witness :
    (∀ f, f ∈ ["a.com", "www.b.org"] →
      stripChars (stripWww f).toList = (stripWww f).toList ∧
      ¬ (['w', 'w', 'w', '.'] <+: (stripWww f).toList)) ∧
    normalize_fqdns (normalize_fqdns ["a.com", "www.b.org"]) =
      normalize_fqdns ["a.com", "www.b.org"] :=
  ⟨by decide, claim2 ["a.com", "www.b.org"] (by decide)⟩

/-- C3 counterexample: on `["b.com", "www.a.com", "a.com"]` the
normalizer does not return the sequence the specification's example
gives; the final `sorted` call orders the strings plainly, and
`"www.a.com"` sorts after `"b.com"`. -/
theorem claim3_counterexample :
    normalize_fqdns ["b.com", "www.a.com", "a.com"] ≠
      ["a.com", "www.a.com", "b.com", "www.b.com"] := by decide

/-- C3 amended: on `["b.com", "www.a.com", "a.com"]` the normalizer
returns the lexicographically sorted sequence
`["a.com", "b.com", "www.a.com", "www.b.com"]`. -/
theorem claim3 :
    normalize_fqdns ["b.com", "www.a.com", "a.com"] =
      ["a.com", "b.com", "www.a.com", "www.b.com"] := by decide

/-- C4 counterexample: a resolution failure does abort the remaining
attempts.  With attempts `some 1.1.1.1, none, some 2.2.2.2` the code
returns `false`, although the attempts that succeeded observe two
distinct addresses (so the claimed behavior — skip the failure, compute
the verdict from the successes — would report `true`). -/
theorem claim4_counterexample :
    detect_dynamic_dns resMidFail = false ∧
      1 < (((List.range 3).filterMap resMidFail).dedup).length := by decide

/-- C4 amended: the Python `try` encloses the whole resolution loop, so
a `socket.gaierror` during any of the three attempts aborts the
detector, which returns `false` regardless of the addresses observed by
the other attempts. -/
theorem claim4 (res : Nat → Option String) (h : ∃ i, i < 3 ∧ res i = none) :
    detect_dynamic_dns res = false :=
  detect_false_of_fail res h

/-- C4 witness: the amended claim at the concrete failing resolver. -/
theorem claim4_witness :
    (∃ i, i < 3 ∧ resMidFail i = none) ∧ detect_dynamic_dns resMidFail = false :=
  ⟨⟨1, by omega, rfl⟩, claim4 resMidFail ⟨1, by omega, rfl⟩⟩

/-- C5 counterexample: the script's CLI has no option requesting
dynamic-DNS detection (`main` accepts only the input file, `--wp`,
`--robots` and `--ports`), yet detection runs and the emitted row
carries `Dynamic DNS: Yes` — the flag is set although it was never
explicitly requested by the caller. -/
theorem claim5_counterexample :
    endsWithStr ((scanTarget netDyn true false "a.com" 80).getD "")
      "Dynamic DNS: Yes" = true ∧
    (scanTarget netDyn true false "a.com" 80).isSome = true := by decide

/-- C5 amended: dynamic-DNS detection runs unconditionally for every
target that passes the reachability gate (regardless of which checks
were requested); every emitted row ends with the flag computed by
`detect_dynamic_dns`, and when all three resolutions succeed the flag
is true exactly when more than one distinct address was observed (in
particular: one repeated address gives false, two distinct addresses
give true). -/
theorem claim5 :
    (∀ (net : Net) (wp robots : Bool) (f : String) (p : Nat) (row : String),
      scanTarget net wp robots f p = some row →
      endsWithStr row ("Dynamic DNS: " ++
        (if detect_dynamic_dns (net.dynLookup f) then "Yes" else "No")) = true) ∧
    (∀ (net : Net) (wp robots : Bool) (f : String) (p : Nat),
      Event.detect f ∈ scanTargetEvents net wp robots f p ↔
        truthyCode (grab_banner net f p).2 = true) ∧
    (∀ (res : Nat → Option String) (a0 a1 a2 : String),
      res 0 = some a0 → res 1 = some a1 → res 2 = some a2 →
      detect_dynamic_dns res = decide (¬ (a1 = a0 ∧ a2 = a0))) :=
  ⟨row_dynamic_suffix, detect_event_iff, detect_of_all_some⟩

/-- C5 witness: the amended claim at concrete networks — the row's flag
follows the detector even with no checks requested, and three identical
resolutions give a false flag. -/
theorem claim5_witness :
    (scanTarget netDyn false false "a.com" 80 =
        some ((scanTarget netDyn false false "a.com" 80).getD "") ∧
      endsWithStr ((scanTarget netDyn false false "a.com" 80).getD "")
        ("Dynamic DNS: " ++
          (if detect_dynamic_dns (netDyn.dynLookup "a.com") then "Yes" else "No")) = true) ∧
    (netA.dynLookup "same" 0 = some "1.1.1.1" ∧
      detect_dynamic_dns (netA.dynLookup "same") =
        decide (¬ ("1.1.1.1" = "1.1.1.1" ∧ "1.1.1.1" = "1.1.1.1"))) :=
  ⟨⟨by decide, claim5.1 netDyn false false "a.com" 80 _ (by decide)⟩,
    ⟨rfl, claim5.2.2 (netA.dynLookup "same") "1.1.1.1" "1.1.1.1" "1.1.1.1" rfl rfl rfl⟩⟩

/-- C6: for a CmsLogin probe that obtains a response, the outcome is
Found (the green "WordPress detected!" result) iff the status is 200
and the lower-cased body contains one of the three literal signatures;
any other obtained response yields NotFound (the red "No WordPress
instance found." result, still carrying the status code), and the two
outcomes are distinct strings. -/
theorem claim6 (net : Net) (f : String) (p : Nat) (r : Response)
    (h : net.get (wpLoginUrl f p) = some r) :
    ((check_wordpress net f p =
        (colored "WordPress detected!" "green", some r.status)) ↔
      (r.status = 200 ∧
        (containsSub (pyLower r.body) "username or email address" = true ∨
         containsSub (pyLower r.body) "wp-includes" = true ∨
         containsSub (pyLower r.body) "https://wordpress.org" = true))) ∧
    (check_wordpress net f p =
        (colored "WordPress detected!" "green", some r.status) ∨
      check_wordpress net f p =
        (colored "No WordPress instance found." "red", some r.status)) ∧
    colored "WordPress detected!" "green" ≠
      colored "No WordPress instance found." "red" := by
  obtain ⟨h1, h2⟩ := check_wordpress_found_iff net f p r h
  exact ⟨h1, h2, by decide⟩

/-- C6 witness: status 200 with body `"<html>hello</html>"` yields
NotFound, while status 200 with the mixed-case body
`"Username or Email Address"` yields Found. -/
theorem claim6_witness :
    (netHtml.get (wpLoginUrl "a.com" 80) =
        some { status := 200, server := none, body := "<html>hello</html>" } ∧
      check_wordpress netHtml "a.com" 80 ≠
        (colored "WordPress detected!" "green", some 200)) ∧
    (netWpBody.get (wpLoginUrl "a.com" 80) =
        some { status := 200, server := none, body := "Username or Email Address" } ∧
      check_wordpress netWpBody "a.com" 80 =
        (colored "WordPress detected!" "green", some 200)) := by
  refine ⟨⟨rfl, ?_⟩, ⟨rfl, ?_⟩⟩
  · intro he
    have := (claim6 netHtml "a.com" 80
      { status := 200, server := none, body := "<html>hello</html>" } rfl).1.mp he
    exact absurd this (by decide)
  · exact (claim6 netWpBody "a.com" 80
      { status := 200, server := none, body := "Username or Email Address" } rfl).1.mpr
      (by decide)

/-- C7: a transport failure on a content probe yields the
`("No Response", None)` outcome for that check only — distinguishable
from NotFound both by the missing status code and by the display string
— and the target's row is still emitted whenever the reachability gate
was passed. -/
theorem claim7 (net : Net) (f : String) (p : Nat) :
    (net.get (wpLoginUrl f p) = none →
      check_wordpress net f p = ("No Response", none)) ∧
    (net.get (robotsUrl f p) = none →
      check_robots net f p = ("No Response", none)) ∧
    (∀ r, net.get (wpLoginUrl f p) = some r →
      (check_wordpress net f p).2 = some r.status) ∧
    (∀ r, net.get (robotsUrl f p) = some r →
      (check_robots net f p).2 = some r.status) ∧
    ("No Response" ≠ colored "No WordPress instance found." "red") ∧
    ("No Response" ≠ colored "No robots.txt found." "red") ∧
    (∀ wp robots : Bool, truthyCode (grab_banner net f p).2 = true →
      (scanTarget net wp robots f p).isSome = true) := by
  refine ⟨check_wordpress_none net f p, check_robots_none net f p,
    fun r hr => check_wordpress_some_snd net f p r hr,
    fun r hr => check_robots_some_snd net f p r hr,
    by decide, by decide, ?_⟩
  intro wp robots ht
  rw [scanTarget_eq, if_pos ht]
  rfl

/-- C7 witness: on a network where both content probes time out while
the reachability probe answers 200, the checks report No Response and
the row is still emitted. -/
theorem claim7_witness :
    (netNoContent.get (wpLoginUrl "a.com" 80) = none ∧
      check_wordpress netNoContent "a.com" 80 = ("No Response", none)) ∧
    (netNoContent.get (robotsUrl "a.com" 80) = none ∧
      check_robots netNoContent "a.com" 80 = ("No Response", none)) ∧
    (truthyCode (grab_banner netNoContent "a.com" 80).2 = true ∧
      (scanTarget netNoContent true true "a.com" 80).isSome = true) :=
  ⟨⟨rfl, (claim7 netNoContent "a.com" 80).1 rfl⟩,
    ⟨rfl, (claim7 netNoContent "a.com" 80).2.1 rfl⟩,
    ⟨by decide, (claim7 netNoContent "a.com" 80).2.2.2.2.2.2 true true (by decide)⟩⟩

/-- C8: the normalizer's output contains, for every input name's base
domain, both the bare and the `www.`-prefixed form, each exactly once;
nothing else appears; and the whole sequence is sorted by the plain
lexicographic string order (not grouped by base domain). -/
theorem claim8 (X : List String) :
    (∀ f, f ∈ X → (normalize_fqdns X).count (stripWww f) = 1 ∧
      (normalize_fqdns X).count ("www." ++ stripWww f) = 1) ∧
    (∀ y, y ∈ normalize_fqdns X →
      ∃ f, f ∈ X ∧ (y = stripWww f ∨ y = "www." ++ stripWww f)) ∧
    (normalize_fqdns X).Nodup ∧ (normalize_fqdns X).Sorted (· ≤ ·) := by
  refine ⟨?_, ?_, nodup_normalize_fqdns X, sorted_normalize_fqdns X⟩
  · intro f hf
    exact ⟨List.count_eq_one_of_mem (nodup_normalize_fqdns X)
        (mem_normalize_fqdns.mpr ⟨f, hf, Or.inl rfl⟩),
      List.count_eq_one_of_mem (nodup_normalize_fqdns X)
        (mem_normalize_fqdns.mpr ⟨f, hf, Or.inr rfl⟩)⟩
  · intro y hy
    exact mem_normalize_fqdns.mp hy

/-- C8 witness: both forms of the base of `www.a.com` occur exactly once
in the normalized output. -/
theorem claim8_witness :
    ("www.a.com" ∈ ["www.a.com", "b.com"] ∧
      (normalize_fqdns ["www.a.com", "b.com"]).count (stripWww "www.a.com") = 1 ∧
      (normalize_fqdns ["www.a.com", "b.com"]).count
        ("www." ++ stripWww "www.a.com") = 1) ∧
    (normalize_fqdns ["www.a.com", "b.com"]).Nodup :=
  ⟨⟨by decide, (claim8 ["www.a.com", "b.com"]).1 "www.a.com" (by decide)⟩,
    (claim8 ["www.a.com", "b.com"]).2.2.1⟩

namespace CountFacts

theorem count_flatten {α : Type} [DecidableEq α] (a : α) :
    ∀ L : List (List α), L.flatten.count a = (L.map (fun l => l.count a)).sum
  | [] => by simp
  | l :: L => by
    simp [List.count_append, count_flatten a L]

theorem count_detect_scanTargetAux (net : Net) (wp robots : Bool) (f : String)
    (p : Nat) (h : String) :
    ((scanTargetAux net wp robots f p).2).count (Event.detect h) =
      if f = h ∧ truthyCode (grab_banner net f p).2 = true then 1 else 0 := by
  unfold scanTargetAux
  rcases hg : grab_banner net f p with ⟨b, sc⟩
  cases sc with
  | none => simp [truthyCode]
  | some c =>
    by_cases h0 : c = 0
    · subst h0
      simp [truthyCode]
    · simp only [truthyCode, ne_eq, h0, not_false_eq_true, decide_True, and_true]
      have hwp : (if wp then [Event.wordpress (wpLoginUrl f p)] else []).count
          (Event.detect h) = 0 := by
        cases wp <;> simp
      have hro : (if robots then [Event.robotsFetch (robotsUrl f p)] else []).count
          (Event.detect h) = 0 := by
        cases robots <;> simp
      by_cases hf : f = h
      · subst hf
        simp [List.count_cons, List.count_append, hwp, hro]
      · simp [List.count_cons, List.count_append, hwp, hro, hf]

theorem count_detect_host (net : Net) (wp robots : Bool) (f : String)
    (ports : List Nat) (h : String) :
    ((ports.map (fun p => scanTargetAux net wp robots f p)).flatMap Prod.snd).count
        (Event.detect h) =
      if f = h
      then (ports.filter (fun p => truthyCode (grab_banner net f p).2)).length
      else 0 := by
  induction ports with
  | nil => simp
  | cons p ps ih =>
    simp only [List.map_cons, List.flatMap_cons, List.count_append,
      count_detect_scanTargetAux, List.filter_cons, ih]
    by_cases hf : f = h
    · subst hf
      by_cases ht : truthyCode (grab_banner net f p).2 = true
      · simp [ht, Nat.add_comm]
      · simp [ht, Bool.of_not_eq_true ht]
    · simp [hf]

theorem count_detect_group (net : Net) (wp robots : Bool) (ports : List Nat)
    (gf : List String) (h : String) :
    (((gf.flatMap (fun f => ports.map (fun p => scanTargetAux net wp robots f p))).flatMap
        Prod.snd)).count (Event.detect h) =
      gf.count h *
        (ports.filter (fun p => truthyCode (grab_banner net h p).2)).length := by
  induction gf with
  | nil => simp
  | cons f fs ih =>
    simp only [List.flatMap_cons, List.flatMap_append, List.count_append, ih,
      count_detect_host]
    by_cases hf : f = h
    · subst hf
      simp [List.count_cons, Nat.add_mul, Nat.add_comm]
    · simp [List.count_cons, hf, Ne.symm hf]

end CountFacts

namespace CountFacts

theorem pairs_filter_map (r : String → Option String) (L : List String)
    (ip : Option String) :
    ((L.map (fun f => (f, r f))).filter (fun pr => pr.2 = ip)).map Prod.fst =
      L.filter (fun f => r f = ip) := by
  induction L with
  | nil => simp
  | cons f fs ih =>
    simp only [List.map_cons, List.filter_cons]
    by_cases hf : r f = ip
    · simp [hf, ih]
    · simp [hf, ih]

end CountFacts

namespace CountFacts

theorem sum_map_ite_count {α : Type} [DecidableEq α] (c : α) (A : Nat) :
    ∀ keys : List α, (keys.map (fun ip => if c = ip then A else 0)).sum =
      keys.count c * A
  | [] => by simp
  | ip :: keys => by
    simp only [List.map_cons, List.sum_cons, sum_map_ite_count c A keys,
      List.count_cons]
    by_cases hc : c = ip
    · simp [hc, Nat.add_mul, Nat.add_comm]
    · simp [hc, Ne.symm hc]

theorem count_filter_eq (h : String) (q : String → Bool) (L : List String) :
    (L.filter q).count h = if q h = true then L.count h else 0 := by
  by_cases hq : q h = true
  · rw [if_pos hq]
    exact List.count_filter hq
  · rw [if_neg hq]
    rw [List.count_eq_zero]
    intro hc
    exact hq (List.of_mem_filter hc)

end CountFacts

/-- C10: the orchestrator invokes dynamic-DNS detection exactly once
per (host, port) pair whose reachability probe returned a status code,
and zero times for a host none of whose ports answered: the number of
`detect_dynamic_dns` call sites executed for host `h` equals the number
of ports whose reachability probe delivered a status code (and is 0 for
hosts outside the normalized list).  As in C1, `HttpStatusesValid`
records that Python's HTTP stack only delivers status codes in 100..999,
making the `if not status_code` gate at line 126 equivalent to presence
of a status code. -/
theorem claim10 (net : Net) (fqdns : List String) (wp robots : Bool)
    (ports : List Nat) (h : String) (hvalid : HttpStatusesValid net) :
    (mainScanEvents net fqdns wp robots ports).count (Event.detect h) =
      if h ∈ normalize_fqdns fqdns
      then (ports.filter (fun p => ((grab_banner net h p).2).isSome)).length
      else 0 := by
  have hfilter : ports.filter (fun p => ((grab_banner net h p).2).isSome) =
      ports.filter (fun p => truthyCode (grab_banner net h p).2) := by
    apply List.filter_congr
    intro p _
    cases hh : net.head (rootUrl h p) with
    | none =>
      unfold grab_banner
      rw [hh]
      simp [truthyCode]
    | some r =>
      have hpos := (hvalid _ _ hh).1
      unfold grab_banner
      rw [hh]
      simp only [Option.isSome_some, truthyCode]
      have : r.status ≠ 0 := by omega
      simp [this]
  rw [hfilter]
  simp only [mainScanEvents, mainScanAux]
  rw [CountFacts.count_flatten]
  simp only [List.map_map, Function.comp]
  simp only [Function.comp_def]
  simp only [CountFacts.count_detect_group, CountFacts.pairs_filter_map,
    CountFacts.count_filter_eq]
  simp only [decide_eq_true_eq, ite_mul, zero_mul]
  rw [CountFacts.sum_map_ite_count]
  by_cases hmem : h ∈ normalize_fqdns fqdns
  · rw [if_pos hmem]
    have hcnt : (normalize_fqdns fqdns).count h = 1 :=
      List.count_eq_one_of_mem (nodup_normalize_fqdns fqdns) hmem
    have hkey : resolve_ip net h ∈
        pyDictKeys ((normalize_fqdns fqdns).map (fun f => resolve_ip net f)) := by
      rw [mem_pyDictKeys]
      exact List.mem_map.mpr ⟨h, hmem, rfl⟩
    have hkcnt := List.count_eq_one_of_mem (nodup_pyDictKeys
      ((normalize_fqdns fqdns).map (fun f => resolve_ip net f))) hkey
    rw [hcnt, hkcnt]
    ring
  · rw [if_neg hmem]
    have hcnt : (normalize_fqdns fqdns).count h = 0 :=
      List.count_eq_zero_of_not_mem hmem
    rw [hcnt]
    ring

namespace RowFacts

theorem filterMap_guard {α β : Type} (c : α → Bool) (g : α → β) :
    ∀ l : List α,
      l.filterMap (fun a => if c a = true then some (g a) else none) =
        (l.filter c).map g
  | [] => by simp
  | a :: l => by
    by_cases hc : c a = true
    · simp [List.filterMap_cons, List.filter_cons, hc, filterMap_guard c g l]
    · simp [List.filterMap_cons, List.filter_cons, hc, Bool.of_not_eq_true hc,
        filterMap_guard c g l]

theorem filterMap_scanTarget (net : Net) (wp robots : Bool) (f : String)
    (ports : List Nat) :
    ports.filterMap (fun p => scanTarget net wp robots f p) =
      (ports.filter (fun p => truthyCode (grab_banner net f p).2)).map
        (fun p => rowFor net wp robots f p (((grab_banner net f p).2).getD 0)
          ((grab_banner net f p).1)) := by
  rw [show (fun p => scanTarget net wp robots f p) =
      (fun p => if truthyCode (grab_banner net f p).2 = true
        then some (rowFor net wp robots f p (((grab_banner net f p).2).getD 0)
          ((grab_banner net f p).1))
        else none) from funext (fun p => scanTarget_eq net wp robots f p)]
  exact filterMap_guard _ _ ports

theorem filterMap_fst_flatMap (net : Net) (wp robots : Bool) (ports : List Nat) :
    ∀ gf : List String,
      ((gf.flatMap (fun f => ports.map
          (fun p => scanTargetAux net wp robots f p))).filterMap Prod.fst) =
        gf.flatMap (fun f => ports.filterMap (fun p => scanTarget net wp robots f p))
  | [] => by simp
  | f :: fs => by
    simp only [List.flatMap_cons, List.filterMap_append,
      filterMap_fst_flatMap net wp robots ports fs]
    congr 1
    rw [List.filterMap_map]
    rfl

end RowFacts

theorem indexOf_beq_irrel {α : Type} [DecidableEq α] [inst : BEq α] [LawfulBEq α]
    (x : α) (l : List α) :
    @List.indexOf α inst x l = @List.indexOf α instBEqOfDecidableEq x l := by
  unfold List.indexOf
  congr 1
  funext b
  rw [Bool.eq_iff_iff]
  simp only [beq_iff_eq]

/-- C9: the emitted sequence decomposes into one contiguous block per
resolved address followed by exactly one boundary marker `""`; the
address keys are pairwise distinct (so all rows of an address are
contiguous), they are an order-preserving subsequence of the resolution
results containing every resolved address, positioned by first
encounter (the `indexOf` equivalence); hosts inside a group are the
normalized list filtered to that address — an order-preserving sublist
of the normalized list — and each host's rows enumerate the reachable
ports in exactly the order the caller supplied. -/
theorem claim9 (net : Net) (fqdns : List String) (wp robots : Bool)
    (ports : List Nat) :
    mainScan net fqdns wp robots ports =
      ((pyDictKeys ((normalize_fqdns fqdns).map (fun f => resolve_ip net f))).map
        (fun ip => groupRows net wp robots ports fqdns ip ++ [""])).flatten ∧
    (pyDictKeys ((normalize_fqdns fqdns).map (fun f => resolve_ip net f))).Nodup ∧
    List.Sublist
      (pyDictKeys ((normalize_fqdns fqdns).map (fun f => resolve_ip net f)))
      ((normalize_fqdns fqdns).map (fun f => resolve_ip net f)) ∧
    (∀ ip, ip ∈ pyDictKeys ((normalize_fqdns fqdns).map (fun f => resolve_ip net f)) ↔
      ip ∈ (normalize_fqdns fqdns).map (fun f => resolve_ip net f)) ∧
    (∀ x y,
      x ∈ pyDictKeys ((normalize_fqdns fqdns).map (fun f => resolve_ip net f)) →
      y ∈ pyDictKeys ((normalize_fqdns fqdns).map (fun f => resolve_ip net f)) →
      x ≠ y →
      ((pyDictKeys ((normalize_fqdns fqdns).map
          (fun f => resolve_ip net f))).indexOf x <
        (pyDictKeys ((normalize_fqdns fqdns).map
          (fun f => resolve_ip net f))).indexOf y ↔
        ((normalize_fqdns fqdns).map (fun f => resolve_ip net f)).indexOf x <
          ((normalize_fqdns fqdns).map (fun f => resolve_ip net f)).indexOf y)) ∧
    (∀ ip, groupHosts net fqdns ip =
        (normalize_fqdns fqdns).filter (fun f => resolve_ip net f = ip) ∧
      List.Sublist (groupHosts net fqdns ip) (normalize_fqdns fqdns)) ∧
    (∀ f, ports.filterMap (fun p => scanTarget net wp robots f p) =
      (ports.filter (fun p => truthyCode (grab_banner net f p).2)).map
        (fun p => rowFor net wp robots f p (((grab_banner net f p).2).getD 0)
          ((grab_banner net f p).1))) := by
  have hosts_eq : ∀ ip, groupHosts net fqdns ip =
      (normalize_fqdns fqdns).filter (fun f => resolve_ip net f = ip) := by
    intro ip
    simp only [groupHosts]
    exact CountFacts.pairs_filter_map (fun f => resolve_ip net f) _ ip
  refine ⟨?_, nodup_pyDictKeys _, sublist_pyDictKeys _,
    fun ip => mem_pyDictKeys, fun x y hx hy hxy => by
      rw [indexOf_beq_irrel x, indexOf_beq_irrel y, indexOf_beq_irrel x, indexOf_beq_irrel y]
      exact indexOf_pyDictKeys hx hy hxy,
    fun ip => ⟨hosts_eq ip, ?_⟩,
    fun f => RowFacts.filterMap_scanTarget net wp robots f ports⟩
  · simp only [mainScan, mainScanAux]
    simp only [List.map_map, Function.comp_def]
    refine congrArg List.flatten (List.map_congr_left ?_)
    intro ip _
    congr 1
    rw [RowFacts.filterMap_fst_flatMap]
    simp only [groupRows, groupHosts]
  · rw [hosts_eq ip]
    exact List.filter_sublist _

/-- C10 witness: on a network where `a.com` answers on port 80 but not
on port 8080, detection for `a.com` runs once. -/
theorem claim10_witness :
    HttpStatusesValid netMixed ∧
      (mainScanEvents netMixed ["a.com"] true true [80, 8080]).count
          (Event.detect "a.com") =
        if "a.com" ∈ normalize_fqdns ["a.com"]
        then (([80, 8080] : List Nat).filter
          (fun p => ((grab_banner netMixed "a.com" p).2).isSome)).length
        else 0 := by
  have hv : HttpStatusesValid netMixed := by
    intro url r h
    by_cases hu : url = rootUrl "a.com" 8080
    · simp [netMixed, hu] at h
    · simp [netMixed, hu] at h
      rw [← h]
      constructor <;> norm_num
  exact ⟨hv, claim10 netMixed ["a.com"] true true [80, 8080] "a.com" hv⟩


/-- C9 witness: the encounter-order equivalence at two concrete address
groups of a concrete scan. -/
theorem claim9_witness :
    (some "1.1.1.1" ∈ pyDictKeys ((normalize_fqdns ["a.com", "b.com"]).map
      (fun f => resolve_ip netMixed f))) ∧
    (some "2.2.2.2" ∈ pyDictKeys ((normalize_fqdns ["a.com", "b.com"]).map
      (fun f => resolve_ip netMixed f))) ∧
    ((some "1.1.1.1" : Option String) ≠ some "2.2.2.2") ∧
    ((pyDictKeys ((normalize_fqdns ["a.com", "b.com"]).map
        (fun f => resolve_ip netMixed f))).indexOf (some "1.1.1.1") <
      (pyDictKeys ((normalize_fqdns ["a.com", "b.com"]).map
        (fun f => resolve_ip netMixed f))).indexOf (some "2.2.2.2") ↔
      ((normalize_fqdns ["a.com", "b.com"]).map
        (fun f => resolve_ip netMixed f)).indexOf (some "1.1.1.1") <
        ((normalize_fqdns ["a.com", "b.com"]).map
          (fun f => resolve_ip netMixed f)).indexOf (some "2.2.2.2")) :=
  ⟨by decide, by decide, by decide,
    (claim9 netMixed ["a.com", "b.com"] true true [80]).2.2.2.2.1
      (some "1.1.1.1") (some "2.2.2.2") (by decide) (by decide) (by decide)⟩
